import Mathlib

/-!
Verification development for the agentgateway repository.

Strings are embedded as lists of characters (`Str`), Go functions as
executable Lean definitions translated from the Go source, and the parts of
the data plane whose sources are not available are modelled from the
specification (each such definition says so in its doc comment).
-/

set_option maxRecDepth 100000

/-- Characters are embedded as `Char`, Go strings as their character lists. -/
abbrev Str := List Char

/-- Coerce a Lean string literal into the `Str` embedding. -/
def strOf (s : String) : Str := s.toList

/-- Whitespace test used by `strings.TrimSpace` (ASCII part of `unicode.IsSpace`). -/
def isSpaceChar (c : Char) : Bool :=
  c = ' ' ∨ c = '\t' ∨ c = '\n' ∨ c = '\r' ∨ c = '\x0b' ∨ c = '\x0c'

/-- Drop leading whitespace (left half of `strings.TrimSpace`). -/
def trimLeftSpace (s : Str) : Str := s.dropWhile isSpaceChar

/-- Drop trailing whitespace (right half of `strings.TrimSpace`). -/
def trimRightSpace (s : Str) : Str := (trimLeftSpace s.reverse).reverse

/-- `strings.TrimSpace`: drop leading and trailing whitespace. -/
def trimSpace (s : Str) : Str := trimRightSpace (trimLeftSpace s)

/-- `strings.CutPrefix`: remove `p` from the front of `s` when present. -/
def cutPfx (p s : Str) : Option Str :=
  if p.isPrefixOf s then some (s.drop p.length) else none

/-- `strings.TrimSuffix` for a single-character suffix. -/
def trimSuffixChar (s : Str) (c : Char) : Str :=
  if s.getLast? = some c then s.dropLast else s

/-- ASCII upper-casing of one character, as `strings.ToUpper` does per rune. -/
def toUpperCharAscii (c : Char) : Char :=
  if 'a' ≤ c ∧ c ≤ 'z' then Char.ofNat (c.toNat - 32) else c

/-- ASCII lower-casing of one character, as `strings.ToLower` does per rune. -/
def toLowerCharAscii (c : Char) : Char :=
  if 'A' ≤ c ∧ c ≤ 'Z' then Char.ofNat (c.toNat + 32) else c

/-- `strings.ToUpper` (ASCII fragment). -/
def goToUpper (s : Str) : Str := s.map toUpperCharAscii

/-- `strings.ToLower` (ASCII fragment). -/
def goToLower (s : Str) : Str := s.map toLowerCharAscii

/-- Index of the first occurrence of `sep` in `s`, if any. -/
def findSubIdx : Str → Str → Option Nat
  | [], sep => if sep = [] then some 0 else none
  | c :: cs, sep =>
    if sep.isPrefixOf (c :: cs) then some 0
    else (findSubIdx cs sep).map (· + 1)

/-- Fuel-driven worker for `goSplit`; the fuel dominates the input length. -/
def goSplitFuel : Nat → Str → Str → List Str
  | 0, s, _ => [s]
  | fuel + 1, s, sep =>
    match findSubIdx s sep with
    | none => [s]
    | some i => s.take i :: goSplitFuel fuel (s.drop (i + sep.length)) sep

/-- `strings.Split` for a non-empty separator (`strings.SplitSeq` yields the
same pieces in order). -/
def goSplit (s sep : Str) : List Str := goSplitFuel (s.length + 1) s sep

/-- `strconv.Atoi`: optional sign, then one or more decimal digits.
Machine-word overflow is not modelled; the inputs of interest are small. -/
def goAtoi (s : Str) : Option Int :=
  let core : Str → Option Nat := fun ds =>
    if ds = [] ∨ ¬ ds.all (fun c => c.isDigit) then none
    else some (ds.foldl (fun acc c => acc * 10 + (c.toNat - 48)) 0)
  match s with
  | '+' :: rest => (core rest).map (fun n => (n : Int))
  | '-' :: rest => (core rest).map (fun n => -(n : Int))
  | _ => (core s).map (fun n => (n : Int))

/-! ## C10 — `ValidationMode.Decode` (pkg settings, src/unnamed/part_029) -/

/-- `ValidationStandard` constant. -/
def validationStandard : Str := strOf "STANDARD"

/-- `ValidationStrict` constant. -/
def validationStrict : Str := strOf "STRICT"

/-- Go `%q` quoting (escape details of `strconv.Quote` are immaterial to the
claims, which only inspect nil-ness of the error). -/
def goQuote (s : Str) : Str := '"' :: s ++ ['"']

/-- `ValidationMode.Decode`: receiver value and error after decoding `value`.
Returns the new receiver content and `none` for a nil error. -/
def validationModeDecode (recv value : Str) : Str × Option Str :=
  let level := goToUpper value
  if level = validationStandard ∨ level = validationStrict then (level, none)
  else (recv, some (strOf "invalid validation mode: " ++ goQuote value))

/-! ## C1 — `ValidateTlsSecretData` (package sslutils, src/unnamed/part_022).
The cryptographic primitives called by the Go code (`tls.X509KeyPair`,
`cert.ParseCertsPEM`, `cert.EncodeCertificates`) are external libraries; they
are abstracted into a `CryptoOps` record of executable functions, with the
control flow of the Go code translated verbatim around them. -/

/-- External crypto primitives used by `cleanedSslKeyPair`. Each returns an
optional error message exactly where the Go library call can. -/
structure CryptoOps where
  x509KeyPair : Str → Str → Option Str
  parseCertsPEM : Str → Except Str (List Str)
  encodeCertificates : List Str → Str × Option Str

/-- `corev1.TLSCertKey`. -/
def tlsCertKey : Str := strOf "tls.crt"

/-- `corev1.TLSPrivateKeyKey`. -/
def tlsPrivateKeyKey : Str := strOf "tls.key"

/-- `corev1.ServiceAccountRootCAKey`. -/
def serviceAccountRootCAKey : Str := strOf "ca.crt"

/-- Go map indexing with the zero value (empty string) for missing keys. -/
def mapGet (m : List (Str × Str)) (k : Str) : Str := (m.lookup k).getD []

/-- `cleanedSslKeyPair`: root-CA-only secrets skip key-pair validation; any
other secret must contain a parseable `tls.crt`/`tls.key` pair, whose
certificate chain is re-parsed and re-encoded. -/
def cleanedSslKeyPair (ops : CryptoOps) (certChain privateKey rootCa : Str) :
    Str × Option Str :=
  if certChain = [] ∧ privateKey = [] ∧ rootCa ≠ [] then (certChain, none)
  else
    match ops.x509KeyPair certChain privateKey with
    | some e => ([], some e)
    | none =>
      match ops.parseCertsPEM certChain with
      | Except.error e => ([], some e)
      | Except.ok candidateCert => ops.encodeCertificates candidateCert

/-- `InvalidTlsSecretError`: wraps an error message with the secret name. -/
def invalidTlsSecretError (n ns msg : Str) : Str :=
  strOf "invalid TLS secret " ++ ns ++ strOf "/" ++ n ++ strOf ": " ++ msg

/-- `ValidateTlsSecretData`: extract `tls.crt`, `tls.key`, `ca.crt` from the
secret data and validate them with `cleanedSslKeyPair`, wrapping any error. -/
def validateTlsSecretData (ops : CryptoOps) (n ns : Str)
    (sslSecretData : List (Str × Str)) : Str × Option Str :=
  let certChain := mapGet sslSecretData tlsCertKey
  let privateKey := mapGet sslSecretData tlsPrivateKeyKey
  let rootCa := mapGet sslSecretData serviceAccountRootCAKey
  let r := cleanedSslKeyPair ops certChain privateKey rootCa
  match r.2 with
  | none => r
  | some e => (r.1, some (invalidTlsSecretError n ns e))

/-- A concrete `CryptoOps` on which empty inputs never form a valid key pair,
used to instantiate theorems at concrete secrets. -/
def sampleCryptoOps : CryptoOps where
  x509KeyPair := fun c k =>
    if c = [] ∨ k = [] then some (strOf "tls: failed to find any PEM data") else none
  parseCertsPEM := fun c =>
    if c = [] then Except.error (strOf "no certificates") else Except.ok [c]
  encodeCertificates := fun certs => (certs.foldr (· ++ ·) [], none)

/-- C1 counterexample: the secret `(ca.crt ↦ "x")` has an empty `tls.crt`
entry (and an empty `tls.key` entry), yet `ValidateTlsSecretData` returns a
nil error — the claim demands a non-nil error whenever `tls.crt` is empty. -/
theorem validateTlsSecretData_counterexample :
    mapGet [(serviceAccountRootCAKey, strOf "x")] tlsCertKey = [] ∧
    mapGet [(serviceAccountRootCAKey, strOf "x")] tlsPrivateKeyKey = [] ∧
    (validateTlsSecretData sampleCryptoOps (strOf "n") (strOf "ns")
        [(serviceAccountRootCAKey, strOf "x")]).2 = none := by
  decide

/-- C1 (amended): when both `tls.crt` and `tls.key` are empty and `ca.crt` is
non-empty, `ValidateTlsSecretData` returns the empty chain with a nil error;
for every other secret the error is nil exactly when the cert/key form a
parseable X.509 key pair whose chain re-parses and re-encodes (so in
particular an empty `tls.crt` or `tls.key` yields a non-nil error), and on
success the cleaned chain is returned. -/
theorem validateTlsSecretData_amended (ops : CryptoOps) (n ns : Str)
    (sslSecretData : List (Str × Str))
    (hEmpty : ∀ c k, c = [] ∨ k = [] → ops.x509KeyPair c k ≠ none) :
    ((validateTlsSecretData ops n ns sslSecretData).2 = none ↔
      (mapGet sslSecretData tlsCertKey = [] ∧ mapGet sslSecretData tlsPrivateKeyKey = [] ∧
        mapGet sslSecretData serviceAccountRootCAKey ≠ []) ∨
      (mapGet sslSecretData tlsCertKey ≠ [] ∧ mapGet sslSecretData tlsPrivateKeyKey ≠ [] ∧
        ops.x509KeyPair (mapGet sslSecretData tlsCertKey)
          (mapGet sslSecretData tlsPrivateKeyKey) = none ∧
        ∃ certs, ops.parseCertsPEM (mapGet sslSecretData tlsCertKey) = Except.ok certs ∧
          (ops.encodeCertificates certs).2 = none)) ∧
    (validateTlsSecretData ops n ns sslSecretData).1 =
      (if mapGet sslSecretData tlsCertKey = [] ∧ mapGet sslSecretData tlsPrivateKeyKey = [] ∧
          mapGet sslSecretData serviceAccountRootCAKey ≠ []
       then mapGet sslSecretData tlsCertKey
       else
         match ops.x509KeyPair (mapGet sslSecretData tlsCertKey)
             (mapGet sslSecretData tlsPrivateKeyKey) with
         | some _ => []
         | none =>
           match ops.parseCertsPEM (mapGet sslSecretData tlsCertKey) with
           | Except.error _ => []
           | Except.ok certs => (ops.encodeCertificates certs).1) := by
  set crt := mapGet sslSecretData tlsCertKey with hcrt
  set key := mapGet sslSecretData tlsPrivateKeyKey with hkey
  set ca := mapGet sslSecretData serviceAccountRootCAKey with hca
  unfold validateTlsSecretData
  rw [← hcrt, ← hkey, ← hca]
  unfold cleanedSslKeyPair
  by_cases h0 : crt = [] ∧ key = [] ∧ ca ≠ []
  · simp [h0]
  · simp only [h0, if_false]
    cases hkp : ops.x509KeyPair crt key with
    | some e => simp [hkp, h0]
    | none =>
      have hcne : crt ≠ [] := by
        intro hc
        exact hEmpty crt key (Or.inl hc) hkp
      have hkne : key ≠ [] := by
        intro hk
        exact hEmpty crt key (Or.inr hk) hkp
      cases hp : ops.parseCertsPEM crt with
      | error e => simp [hp, h0, hcne, hkne]
      | ok certs =>
        cases henc : (ops.encodeCertificates certs).2 with
        | none =>
          constructor
          · simp [hp, henc, hcne, hkne]
          · simp [hp, h0, henc, Prod.ext_iff]
        | some e =>
          constructor
          · simp [hp, henc, h0, hcne, hkne]
          · simp [hp, h0, henc]

/-- Instance of `validateTlsSecretData_amended` at a concrete parseable
secret, discharging the hypothesis for `sampleCryptoOps`. -/
theorem validateTlsSecretData_amended_witness :
    ((validateTlsSecretData sampleCryptoOps (strOf "n") (strOf "ns")
        [(tlsCertKey, strOf "c"), (tlsPrivateKeyKey, strOf "k")]).2 = none ↔
      (mapGet [(tlsCertKey, strOf "c"), (tlsPrivateKeyKey, strOf "k")] tlsCertKey = [] ∧
        mapGet [(tlsCertKey, strOf "c"), (tlsPrivateKeyKey, strOf "k")] tlsPrivateKeyKey = [] ∧
        mapGet [(tlsCertKey, strOf "c"), (tlsPrivateKeyKey, strOf "k")]
          serviceAccountRootCAKey ≠ []) ∨
      (mapGet [(tlsCertKey, strOf "c"), (tlsPrivateKeyKey, strOf "k")] tlsCertKey ≠ [] ∧
        mapGet [(tlsCertKey, strOf "c"), (tlsPrivateKeyKey, strOf "k")] tlsPrivateKeyKey ≠ [] ∧
        sampleCryptoOps.x509KeyPair
          (mapGet [(tlsCertKey, strOf "c"), (tlsPrivateKeyKey, strOf "k")] tlsCertKey)
          (mapGet [(tlsCertKey, strOf "c"), (tlsPrivateKeyKey, strOf "k")] tlsPrivateKeyKey)
          = none ∧
        ∃ certs,
          sampleCryptoOps.parseCertsPEM
            (mapGet [(tlsCertKey, strOf "c"), (tlsPrivateKeyKey, strOf "k")] tlsCertKey)
            = Except.ok certs ∧
          (sampleCryptoOps.encodeCertificates certs).2 = none)) ∧
    (validateTlsSecretData sampleCryptoOps (strOf "n") (strOf "ns")
        [(tlsCertKey, strOf "c"), (tlsPrivateKeyKey, strOf "k")]).1 =
      (if mapGet [(tlsCertKey, strOf "c"), (tlsPrivateKeyKey, strOf "k")] tlsCertKey = [] ∧
          mapGet [(tlsCertKey, strOf "c"), (tlsPrivateKeyKey, strOf "k")] tlsPrivateKeyKey = [] ∧
          mapGet [(tlsCertKey, strOf "c"), (tlsPrivateKeyKey, strOf "k")]
            serviceAccountRootCAKey ≠ []
       then mapGet [(tlsCertKey, strOf "c"), (tlsPrivateKeyKey, strOf "k")] tlsCertKey
       else
         match sampleCryptoOps.x509KeyPair
             (mapGet [(tlsCertKey, strOf "c"), (tlsPrivateKeyKey, strOf "k")] tlsCertKey)
             (mapGet [(tlsCertKey, strOf "c"), (tlsPrivateKeyKey, strOf "k")]
               tlsPrivateKeyKey) with
         | some _ => []
         | none =>
           match sampleCryptoOps.parseCertsPEM
               (mapGet [(tlsCertKey, strOf "c"), (tlsPrivateKeyKey, strOf "k")] tlsCertKey) with
           | Except.error _ => []
           | Except.ok certs => (sampleCryptoOps.encodeCertificates certs).1) :=
  validateTlsSecretData_amended sampleCryptoOps (strOf "n") (strOf "ns")
    [(tlsCertKey, strOf "c"), (tlsPrivateKeyKey, strOf "k")]
    (by
      intro c k h hk
      unfold sampleCryptoOps at hk
      simp only at hk
      rw [if_pos h] at hk
      exact Option.noConfusion hk)

/-! ## C5 — route resolver path matching.
The route resolver lives in the Rust data plane, whose sources are not part
of this tree; the matcher below is modelled from the spec. -/

/-- Modelled from the spec: exact path match of the route resolver (the Rust
data-plane source is not in the tree). The request path must equal the
pattern exactly. -/
def pathMatchExact (pat path : Str) : Bool := path == pat

/-- Modelled from the spec: prefix path match of the route resolver (the Rust
data-plane source is not in the tree). A pattern matches the identical path
or any extension of it that starts a new `/`-separated segment. -/
def pathMatchPfx (pat path : Str) : Bool :=
  pat.isPrefixOf path &&
    (match path.drop pat.length with
     | [] => true
     | c :: _ => c == '/')

/-- C5: an exact path match "/a" matches the request path /a and matches
neither /a/ nor /ab, while a prefix path match "/a" matches /a, /a/, and
/a/b but does not match /ab. -/
theorem path_match_boundaries :
    pathMatchExact (strOf "/a") (strOf "/a") = true ∧
    pathMatchExact (strOf "/a") (strOf "/a/") = false ∧
    pathMatchExact (strOf "/a") (strOf "/ab") = false ∧
    pathMatchPfx (strOf "/a") (strOf "/a") = true ∧
    pathMatchPfx (strOf "/a") (strOf "/a/") = true ∧
    pathMatchPfx (strOf "/a") (strOf "/a/b") = true ∧
    pathMatchPfx (strOf "/a") (strOf "/ab") = false := by
  decide

/-! ## C2 — MCP session initialization.
The MCP session engine lives in the Rust data plane, whose sources are not
part of this tree; the model below follows the spec's session description. -/

/-- Modelled from the spec: the in-process MCP session registry (the Rust
data-plane source is not in the tree). `nextId` feeds the mint counter and
`sessions` records the ids of established sessions. -/
structure McpSessionState where
  nextId : Nat
  sessions : List Str

/-- Modelled from the spec: minting a fresh session id. Represented as a
marker character followed by the decimal counter, hence never empty. -/
def mintSessionId (n : Nat) : Str := 's' :: Nat.toDigits 10 n

/-- Modelled from the spec: a JSON-RPC `initialize` mints a session id (or
reuses the one the client supplied via `mcp-session-id`, an empty header
meaning none was supplied), records it, and returns it as the
`mcp-session-id` response header. -/
def mcpInitializeSession (st : McpSessionState) (supplied : Str) :
    McpSessionState × Str :=
  let sid := if supplied = [] then mintSessionId st.nextId else supplied
  (⟨st.nextId + 1, sid :: st.sessions⟩, sid)

/-- C2: a successful `initialize` is answered with a non-empty
`mcp-session-id` response header that is recorded in the session registry;
the id is freshly minted when the client supplied none and is the client's
own id otherwise. -/
theorem mcp_initialize_session_id (st : McpSessionState) (supplied : Str) :
    (mcpInitializeSession st supplied).2 ≠ [] ∧
    (mcpInitializeSession st supplied).2 ∈ (mcpInitializeSession st supplied).1.sessions ∧
    (if supplied = [] then (mcpInitializeSession st supplied).2 = mintSessionId st.nextId
     else (mcpInitializeSession st supplied).2 = supplied) := by
  by_cases h : supplied = [] <;> simp [mcpInitializeSession, h, mintSessionId]

/-- Instance of `mcp_initialize_session_id` at a concrete state, once with a
client-supplied id and once without. -/
theorem mcp_initialize_session_id_witness :
    (mcpInitializeSession ⟨0, []⟩ []).2 ≠ [] ∧
    (mcpInitializeSession ⟨0, []⟩ []).2 ∈ (mcpInitializeSession ⟨0, []⟩ []).1.sessions ∧
    (if ([] : Str) = [] then (mcpInitializeSession ⟨0, []⟩ []).2 = mintSessionId 0
     else (mcpInitializeSession ⟨0, []⟩ []).2 = []) :=
  mcp_initialize_session_id ⟨0, []⟩ []

/-! ## C3 — MCP `tools/list` federation.
The MCP multiplexer lives in the Rust data plane, whose sources are not part
of this tree; the model below follows the spec's tool-namespacing rules. -/

/-- Modelled from the spec: an upstream MCP target, with the name used as
the tool-name marker and the tools it exposes. -/
structure McpTarget where
  name : Str
  tools : List Str

/-- Modelled from the spec: the exposed name of an upstream tool, the target
name glued to the tool name (default `prefixMode`). -/
def mcpPrefixedToolName (t : McpTarget) (tool : Str) : Str := t.name ++ '_' :: tool

/-- Modelled from the spec: a `tools/list` fans out to all targets, merges
the rewritten names and drops duplicates. -/
def mcpListToolNames (targets : List McpTarget) : List Str :=
  (targets.flatMap (fun t => t.tools.map (mcpPrefixedToolName t))).dedup

/-- C3: the `tools/list` result contains a name iff it is some target's
rewritten tool name, and the result contains no duplicates. -/
theorem mcp_listTools_spec (targets : List McpTarget) :
    (∀ n : Str, n ∈ mcpListToolNames targets ↔
      ∃ t ∈ targets, ∃ tool ∈ t.tools, n = mcpPrefixedToolName t tool) ∧
    (mcpListToolNames targets).Nodup := by
  constructor
  · intro n
    simp only [mcpListToolNames, List.mem_dedup, List.mem_flatMap, List.mem_map]
    constructor
    · rintro ⟨t, ht, tool, htool, rfl⟩
      exact ⟨t, ht, tool, htool, rfl⟩
    · rintro ⟨t, ht, tool, htool, rfl⟩
      exact ⟨t, ht, tool, htool, rfl⟩
  · exact List.nodup_dedup _

/-- Instance of `mcp_listTools_spec` for two concrete targets, matching the
spec's federation scenario (targets A and B each exposing tool `echo`). -/
theorem mcp_listTools_spec_witness :
    (∀ n : Str, n ∈ mcpListToolNames
        [⟨strOf "A", [strOf "echo"]⟩, ⟨strOf "B", [strOf "echo"]⟩] ↔
      ∃ t ∈ [(⟨strOf "A", [strOf "echo"]⟩ : McpTarget), ⟨strOf "B", [strOf "echo"]⟩],
        ∃ tool ∈ t.tools, n = mcpPrefixedToolName t tool) ∧
    (mcpListToolNames [⟨strOf "A", [strOf "echo"]⟩, ⟨strOf "B", [strOf "echo"]⟩]).Nodup :=
  mcp_listTools_spec [⟨strOf "A", [strOf "echo"]⟩, ⟨strOf "B", [strOf "echo"]⟩]

/-! ## C6 — LLM token accounting.
The LLM translation layer lives in the Rust data plane, whose sources are
not part of this tree; the model below follows the spec's accounting rules. -/

/-- Modelled from the spec: the token counters of the CEL `llm` attribute
subtree. -/
structure LlmUsage where
  inputTokens : Nat
  outputTokens : Nat
  totalTokens : Nat

/-- Modelled from the spec: the counters populated for a buffered response,
the total being the tokens consumed plus the tokens produced. -/
def bufferedLlmUsage (input output : Nat) : LlmUsage := ⟨input, output, input + output⟩

/-- Modelled from the spec: one step of the rolling token counter kept while
re-emitting streaming SSE events, adding a chunk's output tokens. -/
def streamingUsageStep (u : LlmUsage) (delta : Nat) : LlmUsage :=
  ⟨u.inputTokens, u.outputTokens + delta, u.totalTokens + delta⟩

/-- Modelled from the spec: the counters after re-emitting a whole SSE
stream, starting from the request's input tokens. -/
def streamingLlmUsage (input : Nat) (deltas : List Nat) : LlmUsage :=
  deltas.foldl streamingUsageStep ⟨input, 0, input⟩

/-- Helper: the streaming fold preserves the token-balance invariant. -/
theorem streamingUsage_foldl_inv (deltas : List Nat) (u : LlmUsage)
    (h : u.inputTokens + u.outputTokens = u.totalTokens) :
    (deltas.foldl streamingUsageStep u).inputTokens +
      (deltas.foldl streamingUsageStep u).outputTokens =
      (deltas.foldl streamingUsageStep u).totalTokens := by
  induction deltas generalizing u with
  | nil => exact h
  | cons d ds ih =>
    exact ih ⟨u.inputTokens, u.outputTokens + d, u.totalTokens + d⟩ (by simp; omega)

/-- C6: whenever the three counters of the `llm` subtree are populated,
`inputTokens + outputTokens = totalTokens`, both for buffered responses and
at the end of a streaming SSE response. -/
theorem llm_token_accounting (input output : Nat) (deltas : List Nat) :
    (bufferedLlmUsage input output).inputTokens +
      (bufferedLlmUsage input output).outputTokens =
      (bufferedLlmUsage input output).totalTokens ∧
    (streamingLlmUsage input deltas).inputTokens +
      (streamingLlmUsage input deltas).outputTokens =
      (streamingLlmUsage input deltas).totalTokens := by
  constructor
  · rfl
  · exact streamingUsage_foldl_inv deltas ⟨input, 0, input⟩ (by simp)

/-- Instance of `llm_token_accounting` at concrete counter values. -/
theorem llm_token_accounting_witness :
    (bufferedLlmUsage 3 4).inputTokens + (bufferedLlmUsage 3 4).outputTokens =
      (bufferedLlmUsage 3 4).totalTokens ∧
    (streamingLlmUsage 3 [1, 2, 5]).inputTokens +
      (streamingLlmUsage 3 [1, 2, 5]).outputTokens =
      (streamingLlmUsage 3 [1, 2, 5]).totalTokens :=
  llm_token_accounting 3 4 [1, 2, 5]

/-! ## C4 — atomic snapshot swaps.
Snapshot handling lives in the Rust data plane, whose sources are not part
of this tree; the interleaving model below follows the spec: one current
snapshot, swapped atomically, with each request pinned at accept time to the
snapshot it started with. -/

/-- Modelled from the spec: the events of the snapshot store — publishing a
new snapshot, accepting a request (which resolves its route and pins the
current snapshot), and a request finishing. Snapshots are named by ids. -/
inductive SnapEvent where
  | swap : Nat → SnapEvent
  | accept : Nat → SnapEvent
  | finish : Nat → SnapEvent
deriving DecidableEq

/-- Modelled from the spec: the shared state — the current snapshot id and
the in-flight requests, each with the snapshot id it observed at accept. -/
structure EngineState where
  current : Nat
  inflight : List (Nat × Nat)

/-- First association for a request id in the in-flight list. -/
def assocFind : List (Nat × Nat) → Nat → Option Nat
  | [], _ => none
  | p :: ps, r => if p.1 = r then some p.2 else assocFind ps r

/-- Modelled from the spec: one interleaving step. A swap replaces only the
current snapshot; an accept pins the current snapshot to a fresh request; a
finish retires a request. -/
def snapStep (st : EngineState) : SnapEvent → EngineState
  | .swap s => ⟨s, st.inflight⟩
  | .accept r =>
    match assocFind st.inflight r with
    | some _ => st
    | none => ⟨st.current, (r, st.current) :: st.inflight⟩
  | .finish r => ⟨st.current, st.inflight.filter (fun p => p.1 != r)⟩

/-- Run a sequence of interleaving steps. -/
def snapRun (st : EngineState) (evs : List SnapEvent) : EngineState :=
  evs.foldl snapStep st

/-- Helper: dropping the entries of another request preserves a lookup. -/
theorem assocFind_filter_ne (l : List (Nat × Nat)) (r r2 : Nat) (h : r ≠ r2) :
    assocFind (l.filter (fun p => p.1 != r2)) r = assocFind l r := by
  induction l with
  | nil => rfl
  | cons p ps ih =>
    by_cases h1 : p.1 = r2
    · have hb : (p.1 != r2) = false := by simp [h1]
      have hpr : p.1 ≠ r := by
        rw [h1]
        exact fun hc => h hc.symm
      simp [List.filter_cons, hb, assocFind, hpr, ih]
    · have hb : (p.1 != r2) = true := by simp [h1]
      simp [List.filter_cons, hb, assocFind, ih]

/-- Helper: a single step that is not this request's finish preserves the
snapshot the request observed. -/
theorem snapStep_preserves (st : EngineState) (ev : SnapEvent) (r s : Nat)
    (hr : assocFind st.inflight r = some s) (hev : ev ≠ SnapEvent.finish r) :
    assocFind (snapStep st ev).inflight r = some s := by
  cases ev with
  | swap snew => exact hr
  | accept r2 =>
    cases hl : assocFind st.inflight r2 with
    | some v => simp [snapStep, hl, hr]
    | none =>
      have hne : r2 ≠ r := by
        intro he
        rw [he, hr] at hl
        exact Option.noConfusion hl
      simp [snapStep, hl, assocFind, hne, hr]
  | finish r2 =>
    have hne : r ≠ r2 := by
      intro he
      exact hev (by rw [he])
    simp only [snapStep]
    rw [assocFind_filter_ne st.inflight r r2 hne]
    exact hr

/-- Helper: a run without this request's finish preserves the snapshot the
request observed. -/
theorem snapRun_preserves (evs : List SnapEvent) (st : EngineState) (r s : Nat)
    (hr : assocFind st.inflight r = some s) (hf : SnapEvent.finish r ∉ evs) :
    assocFind (snapRun st evs).inflight r = some s := by
  induction evs generalizing st with
  | nil => exact hr
  | cons ev evs ih =>
    have h1 : ev ≠ SnapEvent.finish r := fun he => hf (by simp [he])
    have h2 : SnapEvent.finish r ∉ evs := fun he => hf (by simp [he])
    exact ih (snapStep st ev) (snapStep_preserves st ev r s hr h1) h2

/-- C4: a request that resolved before a swap keeps observing its original
snapshot across any later events that do not finish it; after a swap, a
freshly accepted request observes the new snapshot; and the snapshot a
request observes is the single one recorded for it at accept. -/
theorem snapshot_swap_isolation (st : EngineState) (evs : List SnapEvent)
    (r s snew rid : Nat)
    (hr : assocFind st.inflight r = some s)
    (hf : SnapEvent.finish r ∉ evs)
    (hfresh : assocFind (snapRun st evs).inflight rid = none) :
    assocFind (snapRun st evs).inflight r = some s ∧
    (snapStep (snapStep (snapRun st evs) (SnapEvent.swap snew))
        (SnapEvent.accept rid)).current = snew ∧
    assocFind (snapStep (snapStep (snapRun st evs) (SnapEvent.swap snew))
        (SnapEvent.accept rid)).inflight rid = some snew := by
  refine ⟨snapRun_preserves evs st r s hr hf, ?_, ?_⟩
  · simp [snapStep, hfresh]
  · simp [snapStep, hfresh, assocFind]

/-- Instance of `snapshot_swap_isolation` on a concrete trace: request 1 is
accepted under snapshot 7, snapshot 9 is published and request 2 accepted
under it, then snapshot 5 is published and request 3 accepted under it,
while request 1 still observes snapshot 7. -/
theorem snapshot_swap_isolation_witness :
    assocFind (snapRun ⟨7, [(1, 7)]⟩ [SnapEvent.swap 9, SnapEvent.accept 2]).inflight 1 =
      some 7 ∧
    (snapStep (snapStep (snapRun ⟨7, [(1, 7)]⟩ [SnapEvent.swap 9, SnapEvent.accept 2])
        (SnapEvent.swap 5)) (SnapEvent.accept 3)).current = 5 ∧
    assocFind (snapStep (snapStep (snapRun ⟨7, [(1, 7)]⟩
        [SnapEvent.swap 9, SnapEvent.accept 2])
        (SnapEvent.swap 5)) (SnapEvent.accept 3)).inflight 3 = some 5 :=
  snapshot_swap_isolation ⟨7, [(1, 7)]⟩ [SnapEvent.swap 9, SnapEvent.accept 2] 1 7 5 3
    (by decide) (by decide) (by decide)

/-! ## C7 — admin config-dump payload serialization.
Only the test of `admin.SnapshotResponseData.MarshalJSONString`
(src/unnamed/part_003) is in the tree, not the admin package itself; the
marshaller is modelled from the spec and that test, over a small JSON value
type (strings, arrays, objects suffice for the payloads involved). -/

mutual
/-- A JSON value: string, array, or object. -/
inductive JsonV where
  | str : Str → JsonV
  | arr : JsonL → JsonV
  | obj : JsonM → JsonV
/-- A list of JSON values (array elements). -/
inductive JsonL where
  | nil : JsonL
  | cons : JsonV → JsonL → JsonL
/-- A list of JSON object members, in serialization order. -/
inductive JsonM where
  | nil : JsonM
  | cons : Str → JsonV → JsonM → JsonM
end

/-- JSON string escaping (quote and backslash; the payloads of interest
contain no control characters). -/
def escapeJsonChar (c : Char) : Str := if c = '"' ∨ c = '\\' then ['\\', c] else [c]

/-- Render a JSON string literal. -/
def renderJsonString (s : Str) : Str := '"' :: s.flatMap escapeJsonChar ++ ['"']

mutual
/-- Render a JSON value the way `encoding/json.Marshal` does (no spaces,
members in struct order). -/
def renderJson : JsonV → Str
  | .str s => renderJsonString s
  | .arr xs => '[' :: renderJsonItems xs ++ [']']
  | .obj kvs => '\x7b' :: renderJsonMembers kvs ++ ['\x7d']
/-- Render comma-separated array elements. -/
def renderJsonItems : JsonL → Str
  | .nil => []
  | .cons j .nil => renderJson j
  | .cons j js => renderJson j ++ ',' :: renderJsonItems js
/-- Render comma-separated object members. -/
def renderJsonMembers : JsonM → Str
  | .nil => []
  | .cons k v .nil => renderJsonString k ++ ':' :: renderJson v
  | .cons k v kvs => renderJsonString k ++ ':' :: renderJson v ++ ',' :: renderJsonMembers kvs
end

/-- Modelled from the spec and the admin test: the config-dump response
value, a data payload (plain string or list of Kubernetes objects, already
as a JSON value) and an optional error. -/
structure SnapshotResponseData where
  data : JsonV
  error : Option Str

/-- Modelled from the spec and the admin test: the error field renders as
the empty string for a nil error and as the error message otherwise. -/
def snapshotErrorString : Option Str → Str
  | none => []
  | some m => m

/-- Modelled from the spec and the admin test: `MarshalJSONString` emits the
struct as a JSON object with a `data` member holding the data's JSON
encoding and an `error` member holding the error string. -/
def snapshotMarshalJSONString (r : SnapshotResponseData) : Str :=
  '\x7b' :: (renderJsonString (strOf "data") ++ ':' :: renderJson r.data ++
    ',' :: renderJsonString (strOf "error") ++
    ':' :: renderJsonString (snapshotErrorString r.error)) ++ ['\x7d']

/-- The claim's reading of the payload: a JSON object with exactly the
members `data` and `error`. -/
def snapshotResponseJson (r : SnapshotResponseData) : JsonV :=
  JsonV.obj (JsonM.cons (strOf "data") r.data
    (JsonM.cons (strOf "error") (JsonV.str (snapshotErrorString r.error)) JsonM.nil))

/-- The member keys of a JSON object (and nothing for other values). -/
def jsonMemberKeys : JsonM → List Str
  | .nil => []
  | .cons k _ kvs => k :: jsonMemberKeys kvs

/-- The top-level keys of a JSON value. -/
def jsonTopKeys : JsonV → List Str
  | .obj kvs => jsonMemberKeys kvs
  | _ => []

/-- The `corev1.Namespace` value of the admin marshalling test, as the JSON
value `encoding/json` produces for it. -/
def testNamespaceJson : JsonV :=
  JsonV.obj (JsonM.cons (strOf "kind") (JsonV.str (strOf "kind"))
    (JsonM.cons (strOf "apiVersion") (JsonV.str (strOf "version"))
      (JsonM.cons (strOf "metadata")
        (JsonV.obj (JsonM.cons (strOf "name") (JsonV.str (strOf "name"))
          (JsonM.cons (strOf "namespace") (JsonV.str (strOf "namespace"))
            (JsonM.cons (strOf "managedFields")
              (JsonV.arr (JsonL.cons
                (JsonV.obj (JsonM.cons (strOf "manager")
                  (JsonV.str (strOf "manager")) JsonM.nil))
                JsonL.nil))
              JsonM.nil))))
        (JsonM.cons (strOf "spec") (JsonV.obj JsonM.nil)
          (JsonM.cons (strOf "status") (JsonV.obj JsonM.nil) JsonM.nil)))))

/-- C7: `MarshalJSONString` serializes the response as a JSON object with
exactly the members `data` and `error`, rendering a nil error as the empty
string and a non-nil error as its message and the data as its JSON
encoding; the three vectors of the admin marshalling test are reproduced. -/
theorem snapshotResponseData_marshal_spec (r : SnapshotResponseData) :
    snapshotMarshalJSONString r = renderJson (snapshotResponseJson r) ∧
    jsonTopKeys (snapshotResponseJson r) = [strOf "data", strOf "error"] ∧
    snapshotErrorString none = [] ∧
    (∀ m : Str, snapshotErrorString (some m) = m) ∧
    snapshotMarshalJSONString ⟨JsonV.str (strOf "my data"), none⟩ =
      strOf "\x7b\"data\":\"my data\",\"error\":\"\"\x7d" ∧
    snapshotMarshalJSONString ⟨JsonV.str [], some (strOf "one error")⟩ =
      strOf "\x7b\"data\":\"\",\"error\":\"one error\"\x7d" ∧
    snapshotMarshalJSONString ⟨JsonV.arr (JsonL.cons testNamespaceJson JsonL.nil), none⟩ =
      strOf "\x7b\"data\":[\x7b\"kind\":\"kind\",\"apiVersion\":\"version\",\"metadata\":\x7b\"name\":\"name\",\"namespace\":\"namespace\",\"managedFields\":[\x7b\"manager\":\"manager\"\x7d]\x7d,\"spec\":\x7b\x7d,\"status\":\x7b\x7d\x7d],\"error\":\"\"\x7d" := by
  refine ⟨?_, rfl, rfl, fun m => rfl, by decide, by decide, by decide⟩
  simp [snapshotMarshalJSONString, snapshotResponseJson, renderJson, renderJsonMembers]

/-- Instance of `snapshotResponseData_marshal_spec` at a concrete response. -/
theorem snapshotResponseData_marshal_spec_witness :
    snapshotMarshalJSONString ⟨JsonV.str (strOf "x"), some (strOf "e")⟩ =
      renderJson (snapshotResponseJson ⟨JsonV.str (strOf "x"), some (strOf "e")⟩) ∧
    jsonTopKeys (snapshotResponseJson ⟨JsonV.str (strOf "x"), some (strOf "e")⟩) =
      [strOf "data", strOf "error"] ∧
    snapshotErrorString none = [] ∧
    (∀ m : Str, snapshotErrorString (some m) = m) ∧
    snapshotMarshalJSONString ⟨JsonV.str (strOf "my data"), none⟩ =
      strOf "\x7b\"data\":\"my data\",\"error\":\"\"\x7d" ∧
    snapshotMarshalJSONString ⟨JsonV.str [], some (strOf "one error")⟩ =
      strOf "\x7b\"data\":\"\",\"error\":\"one error\"\x7d" ∧
    snapshotMarshalJSONString ⟨JsonV.arr (JsonL.cons testNamespaceJson JsonL.nil), none⟩ =
      strOf "\x7b\"data\":[\x7b\"kind\":\"kind\",\"apiVersion\":\"version\",\"metadata\":\x7b\"name\":\"name\",\"namespace\":\"namespace\",\"managedFields\":[\x7b\"manager\":\"manager\"\x7d]\x7d,\"spec\":\x7b\x7d,\"status\":\x7b\x7d\x7d],\"error\":\"\"\x7d" :=
  snapshotResponseData_marshal_spec ⟨JsonV.str (strOf "x"), some (strOf "e")⟩

/-! ## C9 — `WithCurlResponse` (src/test/gomega/transforms/curl.go). -/

/-- `responseHeaderPrefix`. -/
def responseHeaderPfx : Str := strOf "< "

/-- `responseStatusPrefix1dot1`. -/
def responseStatusPfx11 : Str := strOf "< HTTP/1.1 "

/-- `responseStatusPrefix2`. -/
def responseStatusPfx2 : Str := strOf "< HTTP/2 "

/-- `processResponseHeader`: header key and value of a line, or two empty
strings when the line is not processed as a header. -/
def processResponseHeader (line : Str) : Str × Str :=
  if responseHeaderPfx.isPrefixOf line then
    match goSplit (line.drop responseHeaderPfx.length) (strOf ": ") with
    | [k, v] => (goToLower k, trimSuffixChar v '\r')
    | _ => ([], [])
  else ([], [])

/-- `processResponseCode`: the status code of a line, or 0 when the line is
not processed as a status line. -/
def processResponseCode (line : Str) : Int :=
  if responseStatusPfx11.isPrefixOf line ∨ responseStatusPfx2.isPrefixOf line then
    match goSplit line (strOf " ") with
    | _ :: _ :: third :: _ :: _ =>
      match goAtoi third with
      | some code => code
      | none => 0
    | _ => 0
  else 0

/-- The `http.Response` fields `WithCurlResponse` fills in (header keys are
kept as the strings handed to `Header.Add`). -/
structure CurlHttpResponse where
  statusCode : Int
  headers : List (Str × Str)
  body : Str

/-- One iteration of the stderr-line loop of `WithCurlResponse`: a line with
a non-empty header key is added to the headers, otherwise a non-zero status
code overwrites the status. -/
def curlLineStep (acc : List (Str × Str) × Int) (line : Str) :
    List (Str × Str) × Int :=
  let kv := processResponseHeader line
  if kv.1 ≠ [] then (acc.1 ++ [kv], acc.2)
  else
    let code := processResponseCode line
    if code ≠ 0 then (acc.1, code) else acc

/-- `WithCurlResponse`: headers and status from the stderr lines, body from
stdout. -/
def withCurlResponse (stdErr stdOut : Str) : CurlHttpResponse :=
  let r := (goSplit stdErr (strOf "\n")).foldl curlLineStep ([], 0)
  ⟨r.2, r.1, stdOut⟩

/-- Last element of a list, or a default. -/
def lastD : List Int → Int → Int
  | [], d => d
  | x :: xs, _ => lastD xs x

/-- The claim's reading of one line's header contribution (with the
empty-key exception the code imposes). -/
def specCurlHeaderOf (line : Str) : Option (Str × Str) :=
  if responseHeaderPfx.isPrefixOf line then
    match goSplit (line.drop responseHeaderPfx.length) (strOf ": ") with
    | [k, v] =>
      if goToLower k ≠ [] then some (goToLower k, trimSuffixChar v '\r') else none
    | _ => none
  else none

/-- The claim's reading of one line's status contribution: a line consumed
as a header never sets the status; otherwise a status-prefixed line with at
least four space-separated fields whose third parses as a non-zero integer
sets that integer. -/
def specCurlStatusOf (line : Str) : Option Int :=
  if (specCurlHeaderOf line).isSome then none
  else if responseStatusPfx11.isPrefixOf line ∨ responseStatusPfx2.isPrefixOf line then
    match goSplit line (strOf " ") with
    | _ :: _ :: third :: _ :: _ =>
      match goAtoi third with
      | some code => if code ≠ 0 then some code else none
      | none => none
    | _ => none
  else none

/-- Headers contributed by a list of stderr lines, per the claim. -/
def specCurlHeaders (lines : List Str) : List (Str × Str) :=
  lines.filterMap specCurlHeaderOf

/-- Status decided by a list of stderr lines, per the claim: the last line
that sets the status wins, and the status defaults to 0. -/
def specCurlStatus (lines : List Str) : Int :=
  lastD (lines.filterMap specCurlStatusOf) 0

/-- Helper: the claim-side header reading agrees with the code's header
processing plus the loop's non-empty-key test. -/
theorem specCurlHeaderOf_eq (l : Str) :
    specCurlHeaderOf l =
      (if (processResponseHeader l).1 = [] then none else some (processResponseHeader l)) := by
  unfold specCurlHeaderOf processResponseHeader
  by_cases hp : responseHeaderPfx.isPrefixOf l
  · simp only [hp, if_true]
    rcases hsp : goSplit (l.drop responseHeaderPfx.length) (strOf ": ") with
      _ | ⟨k, _ | ⟨v, _ | ⟨w, rest⟩⟩⟩
    · simp
    · simp
    · by_cases hk : goToLower k = [] <;> simp [hk]
    · simp
  · simp [hp]

/-- Helper: on a line not consumed as a header, the claim-side status
reading is the code's status processing plus the loop's non-zero test. -/
theorem specCurlStatusOf_eq (l : Str) (h : (processResponseHeader l).1 = []) :
    specCurlStatusOf l =
      (if processResponseCode l = 0 then none else some (processResponseCode l)) := by
  unfold specCurlStatusOf
  rw [specCurlHeaderOf_eq l, if_pos h]
  simp only [Option.isSome_none, Bool.false_eq_true, if_false]
  by_cases hp : responseStatusPfx11.isPrefixOf l ∨ responseStatusPfx2.isPrefixOf l
  · have hcode : processResponseCode l =
        (match goSplit l (strOf " ") with
         | _ :: _ :: third :: _ :: _ =>
           (match goAtoi third with
            | some code => code
            | none => 0)
         | _ => 0) := by
      unfold processResponseCode
      rw [if_pos hp]
    rw [if_pos hp, hcode]
    rcases hsp : goSplit l (strOf " ") with _ | ⟨a, _ | ⟨b, _ | ⟨c, _ | ⟨d, rest⟩⟩⟩⟩
    · simp
    · simp
    · simp
    · simp
    · cases hA : goAtoi c with
      | none => simp [hA]
      | some code => by_cases hz : code = 0 <;> simp [hA, hz]
  · have hcode : processResponseCode l = 0 := by
      unfold processResponseCode
      rw [if_neg hp]
    rw [if_neg hp, hcode]
    simp

/-- Helper: the stderr loop accumulates exactly the claim-side headers and
the last claim-side status. -/
theorem curlFold_spec (lines : List Str) (hs : List (Str × Str)) (st : Int) :
    lines.foldl curlLineStep (hs, st) =
      (hs ++ specCurlHeaders lines, lastD (lines.filterMap specCurlStatusOf) st) := by
  induction lines generalizing hs st with
  | nil => simp [specCurlHeaders, lastD]
  | cons l ls ih =>
    simp only [List.foldl_cons, List.filterMap_cons, specCurlHeaders]
    by_cases h1 : (processResponseHeader l).1 = []
    · have hh := specCurlHeaderOf_eq l
      rw [if_pos h1] at hh
      have hst := specCurlStatusOf_eq l h1
      by_cases h2 : processResponseCode l = 0
      · rw [if_pos h2] at hst
        simp [curlLineStep, h1, h2, hh, hst, ih, specCurlHeaders]
      · rw [if_neg h2] at hst
        simp [curlLineStep, h1, h2, hh, hst, ih, specCurlHeaders, lastD]
    · have hh := specCurlHeaderOf_eq l
      rw [if_neg h1] at hh
      have hso : specCurlStatusOf l = none := by
        unfold specCurlStatusOf
        rw [specCurlHeaderOf_eq l, if_neg h1]
        simp
      simp [curlLineStep, h1, hh, hso, ih, specCurlHeaders]

/-- C9 counterexample: three concrete curl outputs on which the claim's
characterization fails. The line `< HTTP/2 200 OK: x` begins with the
status prefix, has at least four space-separated fields and its third field
parses as the integer 200, yet the status stays 0 (the line is consumed as
a header instead). The line `< : v` begins with `< ` and its remainder
splits on `: ` into exactly two parts, yet no header is contributed (the
key is empty). And in a run where a later status-prefixed line's third
field parses as the integer 0, the earlier 200 is kept, not the claimed
last parsed value 0. -/
theorem withCurlResponse_counterexample :
    (responseStatusPfx2.isPrefixOf (strOf "< HTTP/2 200 OK: x") = true ∧
      (goSplit (strOf "< HTTP/2 200 OK: x") (strOf " ")).length ≥ 4 ∧
      goAtoi ((goSplit (strOf "< HTTP/2 200 OK: x") (strOf " ")).getD 2 []) = some 200 ∧
      (withCurlResponse (strOf "< HTTP/2 200 OK: x") []).statusCode = 0) ∧
    (responseHeaderPfx.isPrefixOf (strOf "< : v") = true ∧
      goSplit ((strOf "< : v").drop 2) (strOf ": ") = [[], strOf "v"] ∧
      (withCurlResponse (strOf "< : v") []).headers = []) ∧
    (goAtoi ((goSplit (strOf "< HTTP/2 0 x y") (strOf " ")).getD 2 []) = some 0 ∧
      (withCurlResponse (strOf "< HTTP/2 200 OK 1\n< HTTP/2 0 x y") []).statusCode = 200) := by
  decide

/-- C9 (amended): `WithCurlResponse` parses curl output deterministically —
a stderr line contributes a response header iff it begins with `< ` and the
remainder splits on `: ` into exactly two parts with a non-empty first
part, the key lowercased and one trailing carriage return stripped from the
value; a line consumed as a header never sets the status code; any other
line sets the status code iff it begins with `< HTTP/1.1 ` or `< HTTP/2 `
and has at least four space-separated fields whose third parses as a
non-zero integer, the last such line winning and the status defaulting to
0; and the response body is exactly the stdout text. -/
theorem withCurlResponse_spec (stdErr stdOut : Str) :
    (withCurlResponse stdErr stdOut).body = stdOut ∧
    (withCurlResponse stdErr stdOut).headers = specCurlHeaders (goSplit stdErr (strOf "\n")) ∧
    (withCurlResponse stdErr stdOut).statusCode = specCurlStatus (goSplit stdErr (strOf "\n")) := by
  unfold withCurlResponse specCurlStatus
  rw [curlFold_spec]
  exact ⟨rfl, by simp, rfl⟩

/-- Instance of `withCurlResponse_spec` on a concrete curl transcript. -/
theorem withCurlResponse_spec_witness :
    (withCurlResponse (strOf "< HTTP/1.1 404 NF\n< server: envoy\r\nx") (strOf "body")).body =
      strOf "body" ∧
    (withCurlResponse (strOf "< HTTP/1.1 404 NF\n< server: envoy\r\nx") (strOf "body")).headers =
      specCurlHeaders (goSplit (strOf "< HTTP/1.1 404 NF\n< server: envoy\r\nx") (strOf "\n")) ∧
    (withCurlResponse (strOf "< HTTP/1.1 404 NF\n< server: envoy\r\nx") (strOf "body")).statusCode =
      specCurlStatus (goSplit (strOf "< HTTP/1.1 404 NF\n< server: envoy\r\nx") (strOf "\n")) :=
  withCurlResponse_spec (strOf "< HTTP/1.1 404 NF\n< server: envoy\r\nx") (strOf "body")

/-! ## C8 — `FirstSSEDataPayload` (src/unnamed/part_019).
The `bufio.Scanner` line loop is modelled by splitting the body on newlines
(`ScanLines` also strips one trailing carriage return per line, which the
subsequent `strings.TrimSpace` subsumes; the scanner yields no line for an
empty input, which the loop skips anyway). -/

/-- Newline split of a body, with Go `strings.Split` conventions. -/
def splitNl : Str → List Str
  | [] => [[]]
  | c :: cs =>
    if c = '\n' then [] :: splitNl cs
    else
      match splitNl cs with
      | [] => [[c]]
      | r :: rs => (c :: r) :: rs

/-- The `data:` marker of an SSE event line. -/
def dataColon : Str := strOf "data:"

/-- The scanner loop of `FirstSSEDataPayload`: accumulate the trimmed
payloads of `data:` lines, separated by one newline, and stop at the first
blank line once a `data:` line has been seen. -/
def sseLoop : List Str → Str → Bool → Str
  | [], buf, _ => buf
  | l :: ls, buf, got =>
    match cutPfx dataColon (trimSpace l) with
    | some after =>
      sseLoop ls
        (if buf.length > 0 then buf ++ '\n' :: trimSpace after
         else buf ++ trimSpace after) true
    | none => if got ∧ trimSpace l = [] then buf else sseLoop ls buf got

/-- `FirstSSEDataPayload`: the first full SSE `data:` event payload of a raw
SSE body, with an `ok` flag. -/
def firstSSEDataPayload (body : Str) : Str × Bool :=
  if trimSpace (sseLoop (splitNl body) [] false) = [] then ([], false)
  else (trimSpace (sseLoop (splitNl body) [] false), true)

/-- The claim's reading of the lines that contribute: the trimmed payloads
of the `data:` lines encountered before the first blank line that follows a
`data:` line. -/
def ssePayloads : List Str → Bool → List Str
  | [], _ => []
  | l :: ls, got =>
    match cutPfx dataColon (trimSpace l) with
    | some after => trimSpace after :: ssePayloads ls true
    | none => if got ∧ trimSpace l = [] then [] else ssePayloads ls got

/-- Join strings with a single newline between consecutive entries. -/
def joinNl : List Str → Str
  | [] => []
  | [p] => p
  | p :: ps => p ++ '\n' :: joinNl ps

/-- The claim's reading of the returned payload: the contributed payloads
joined with single newlines, then trimmed. -/
def sseSpecPayload (body : Str) : Str :=
  trimSpace (joinNl (ssePayloads (splitNl body) false))

/-- The loop's buffer accumulation, as a fold. -/
def joinAcc (b : Str) (ps : List Str) : Str :=
  ps.foldl (fun b p => if b.length > 0 then b ++ '\n' :: p else b ++ p) b

/-- Helper: the scanner loop computes the fold of the contributed payloads
over the starting buffer. -/
theorem sseLoop_eq_joinAcc (ls : List Str) (buf : Str) (got : Bool) :
    sseLoop ls buf got = joinAcc buf (ssePayloads ls got) := by
  induction ls generalizing buf got with
  | nil => rfl
  | cons l ls ih =>
    cases hc : cutPfx dataColon (trimSpace l) with
    | some after =>
      simp only [sseLoop, ssePayloads, hc]
      rw [ih]
      rfl
    | none =>
      have hce : cutPfx dataColon [] = none := by decide
      by_cases hg : (got = true ∧ trimSpace l = [])
      · simp [sseLoop, ssePayloads, hc, hce, hg, joinAcc]
      · simp only [sseLoop, ssePayloads, hc, if_neg hg]
        exact ih buf got

/-- Helper: once the buffer is non-empty, every later payload is appended
after one newline. -/
theorem joinAcc_of_ne (ps : List Str) (b : Str) (hb : b ≠ []) :
    joinAcc b ps = b ++ ps.flatMap (fun p => '\n' :: p) := by
  induction ps generalizing b with
  | nil => simp [joinAcc]
  | cons p ps ih =>
    have hlen : b.length > 0 := List.length_pos.mpr hb
    rw [show joinAcc b (p :: ps) =
      joinAcc (if b.length > 0 then b ++ '\n' :: p else b ++ p) ps from rfl]
    rw [if_pos hlen, ih _ (by simp)]
    simp

/-- Helper: for a non-empty payload list, newline-joining after a leading
newline is the same as prepending a newline to every payload. -/
theorem joinNl_flat (ps : List Str) (h : ps ≠ []) :
    '\n' :: joinNl ps = ps.flatMap (fun p => '\n' :: p) := by
  induction ps with
  | nil => cases h rfl
  | cons q qs ih =>
    cases qs with
    | nil => simp [joinNl]
    | cons q2 qs2 =>
      rw [show joinNl (q :: q2 :: qs2) = q ++ '\n' :: joinNl (q2 :: qs2) from rfl]
      rw [ih (by simp)]
      simp [List.flatMap_cons]

/-- Helper: the loop's fold result differs from the newline join only by
leading newlines (contributed by leading empty payloads). -/
theorem joinNl_eq_replicate (ps : List Str) :
    ∃ k, joinNl ps = List.replicate k '\n' ++ joinAcc [] ps := by
  induction ps with
  | nil => exact ⟨0, rfl⟩
  | cons p ps ih =>
    cases ps with
    | nil => exact ⟨0, by simp [joinNl, joinAcc]⟩
    | cons q qs =>
      by_cases hp : p = []
      · obtain ⟨k, hk⟩ := ih
        refine ⟨k + 1, ?_⟩
        subst hp
        rw [show joinNl ([] :: q :: qs) = [] ++ '\n' :: joinNl (q :: qs) from rfl]
        rw [show joinAcc [] ([] :: q :: qs) = joinAcc [] (q :: qs) from rfl]
        rw [List.nil_append, hk]
        simp [List.replicate_succ]
      · refine ⟨0, ?_⟩
        have h1 : joinAcc [] (p :: q :: qs) = joinAcc p (q :: qs) := by
          simp [joinAcc]
        have h2 := joinAcc_of_ne (q :: qs) p hp
        have h3 := joinNl_flat (q :: qs) (by simp)
        rw [show joinNl (p :: q :: qs) = p ++ '\n' :: joinNl (q :: qs) from rfl]
        simp only [List.replicate_zero, List.nil_append, h1, h2, ← h3]

/-- Helper: trimming ignores leading newlines. -/
theorem trimSpace_replicate (k : Nat) (s : Str) :
    trimSpace (List.replicate k '\n' ++ s) = trimSpace s := by
  induction k with
  | zero => simp
  | succ k ih =>
    have hsp : isSpaceChar '\n' = true := by decide
    simp only [List.replicate_succ, List.cons_append]
    rw [← ih]
    simp [trimSpace, trimLeftSpace, List.dropWhile_cons, hsp]

/-- Helper: without any `data:` line, nothing is contributed. -/
theorem ssePayloads_all_none (ls : List Str) (got : Bool)
    (h : ∀ l ∈ ls, cutPfx dataColon (trimSpace l) = none) :
    ssePayloads ls got = [] := by
  induction ls generalizing got with
  | nil => rfl
  | cons l ls ih =>
    have hc := h l (by simp)
    have hrest : ∀ l2 ∈ ls, cutPfx dataColon (trimSpace l2) = none :=
      fun l2 hl2 => h l2 (by simp [hl2])
    have hce : cutPfx dataColon [] = none := by decide
    by_cases hg : (got = true ∧ trimSpace l = [])
    · simp [ssePayloads, hc, hce, hg]
    · simp only [ssePayloads, hc, if_neg hg]
      exact ih got hrest

/-- C8: `FirstSSEDataPayload` returns ok exactly when some line begins (after
trimming) with `data:` and the accumulated payload is non-empty; the payload
is the newline-join of the trimmed `data:` payloads encountered before the
first blank line following a `data:` line, trimmed, and `("", false)` is
returned otherwise. Two concrete vectors are included. -/
theorem firstSSEDataPayload_spec (body : Str) :
    firstSSEDataPayload body =
      (if sseSpecPayload body = [] then ([], false) else (sseSpecPayload body, true)) ∧
    ((firstSSEDataPayload body).2 = true ↔
      ((∃ l ∈ splitNl body, dataColon.isPrefixOf (trimSpace l) = true) ∧
        sseSpecPayload body ≠ [])) ∧
    firstSSEDataPayload (strOf "event: x\ndata: a\ndata: b\n\ndata: c") =
      (strOf "a\nb", true) ∧
    firstSSEDataPayload (strOf "data:\n\n") = ([], false) := by
  have hkey : trimSpace (sseLoop (splitNl body) [] false) = sseSpecPayload body := by
    rw [sseLoop_eq_joinAcc]
    obtain ⟨k, hk⟩ := joinNl_eq_replicate (ssePayloads (splitNl body) false)
    unfold sseSpecPayload
    rw [hk, trimSpace_replicate]
  have heq : firstSSEDataPayload body =
      (if sseSpecPayload body = [] then ([], false) else (sseSpecPayload body, true)) := by
    unfold firstSSEDataPayload
    rw [hkey]
  refine ⟨heq, ?_, by decide, by decide⟩
  constructor
  · intro h2
    have hne : sseSpecPayload body ≠ [] := by
      intro h0
      rw [heq, if_pos h0] at h2
      simp at h2
    refine ⟨?_, hne⟩
    by_contra hex
    push_neg at hex
    have hall : ∀ l ∈ splitNl body, cutPfx dataColon (trimSpace l) = none := by
      intro l hl
      have hnp := hex l hl
      unfold cutPfx
      rw [if_neg (by simpa using hnp)]
    apply hne
    unfold sseSpecPayload
    rw [ssePayloads_all_none _ _ hall]
    rfl
  · rintro ⟨hex, hne⟩
    rw [heq, if_neg hne]

/-- Instance of `firstSSEDataPayload_spec` on a concrete SSE body. -/
theorem firstSSEDataPayload_spec_witness :
    firstSSEDataPayload (strOf "data: hi\n\n") =
      (if sseSpecPayload (strOf "data: hi\n\n") = []
       then ([], false) else (sseSpecPayload (strOf "data: hi\n\n"), true)) ∧
    ((firstSSEDataPayload (strOf "data: hi\n\n")).2 = true ↔
      ((∃ l ∈ splitNl (strOf "data: hi\n\n"),
          dataColon.isPrefixOf (trimSpace l) = true) ∧
        sseSpecPayload (strOf "data: hi\n\n") ≠ [])) ∧
    firstSSEDataPayload (strOf "event: x\ndata: a\ndata: b\n\ndata: c") =
      (strOf "a\nb", true) ∧
    firstSSEDataPayload (strOf "data:\n\n") = ([], false) :=
  firstSSEDataPayload_spec (strOf "data: hi\n\n")

/-- C10: `ValidationMode.Decode` succeeds iff the upper-casing of the input
is "STANDARD" or "STRICT", storing that canonical value in the receiver; on
any other input it reports an error and leaves the receiver unchanged. -/
theorem validationModeDecode_spec (recv value : Str) :
    ((validationModeDecode recv value).2 = none ↔
      (goToUpper value = validationStandard ∨ goToUpper value = validationStrict)) ∧
    (validationModeDecode recv value).1 =
      (if goToUpper value = validationStandard ∨ goToUpper value = validationStrict
       then goToUpper value else recv) := by
  unfold validationModeDecode
  by_cases h : goToUpper value = validationStandard ∨ goToUpper value = validationStrict <;>
    simp [h]

/-- Instance of `validationModeDecode_spec` at a concrete input. -/
theorem validationModeDecode_spec_witness :
    ((validationModeDecode (strOf "OLD") (strOf "strict")).2 = none ↔
      (goToUpper (strOf "strict") = validationStandard ∨
        goToUpper (strOf "strict") = validationStrict)) ∧
    (validationModeDecode (strOf "OLD") (strOf "strict")).1 =
      (if goToUpper (strOf "strict") = validationStandard ∨
          goToUpper (strOf "strict") = validationStrict
       then goToUpper (strOf "strict") else strOf "OLD") :=
  validationModeDecode_spec (strOf "OLD") (strOf "strict")
